import Mathlib

/-!
Verification development for `adbhelper.py`, a CLI helper around the `adb`
device-bridge binary.  The Lean definitions below are a shallow embedding of
the source: the log-analysis pipeline (`cmd_analyze_logs` with the regular
expressions `RE_LOGCAT_LEVEL` and `RE_FATAL`), device selection
(`DeviceSelector.pick`), the one-shot command runner (`AdbRunner.run`), the
streamed log capture (`cmd_logcat`), and the screen-recording duration logic
(`cmd_record`).  Effectful pieces (spawned subprocesses, the filesystem,
wall-clock timestamps) are modelled by passing their observable outcomes in
as explicit parameters.
-/

namespace AdbHelper

/-! ### Python dictionary with insertion order

`cmd_analyze_logs` uses Python dicts `levels` and `tags` updated by
`d[k] = d.get(k, 0) + 1`.  CPython dicts preserve insertion order: updating
an existing key keeps its position, a new key is appended at the end.  We
model such a dict as an association list. -/

def dictIncr {κ : Type} [DecidableEq κ] : List (κ × Nat) → κ → List (κ × Nat)
  | [], k => [(k, 1)]
  | (a, c) :: rest, k =>
    if a = k then (a, c + 1) :: rest else (a, c) :: dictIncr rest k

/-- `d.get(k, 0)` on the association-list model of a Python dict. -/
def dictGet {κ : Type} [DecidableEq κ] : List (κ × Nat) → κ → Nat
  | [], _ => 0
  | (a, c) :: rest, k => if a = k then c else dictGet rest k

/-- Sum of all counter values of a dict. -/
def sumVals {κ : Type} (d : List (κ × Nat)) : Nat := (d.map Prod.snd).sum

/-! ### The regular expressions of the analyzer

`RE_LOGCAT_LEVEL = re.compile(r"^\S+ +(?P<level>[VDIWEF])/(?P<tag>[^() ]+)\s*\(")`
used via `.match` (anchored at the start of the line), and
`RE_FATAL = re.compile(r"FATAL EXCEPTION|ANR in|java\.lang\.", re.IGNORECASE)`
used via `.search`.

Python's `\s` (and the complement `\S`) on `str` patterns matches the Unicode
whitespace set reproduced in `isPySpace`.  In `RE_LOGCAT_LEVEL` the greedy
interpretation of `\S+`, `" +"`, `[^() ]+` and `\s*` is faithful: each greedy
run is bounded by a character class disjoint from the character that has to
follow it, so the backtracking engine either succeeds on the greedy split or
fails altogether (argument re-checked case by case against the pattern). -/

def isPySpace (c : Char) : Bool :=
  c = ' ' || c = '\t' || c = '\n' || c = '\x0b' || c = '\x0c' || c = '\r' ||
  c = '\x1c' || c = '\x1d' || c = '\x1e' || c = '\x1f' || c = '\x85' ||
  c = '\xa0' || c = '\u1680' || ('\u2000' ≤ c && c ≤ '\u200a') ||
  c = '\u2028' || c = '\u2029' || c = '\u202f' || c = '\u205f' || c = '\u3000'

def levelChars : List Char := ['V', 'D', 'I', 'W', 'E', 'F']

/-- A character allowed inside the `tag` group: anything but `(`, `)`, space. -/
def isTagChar (c : Char) : Bool := !(c = '(' || c = ')' || c = ' ')

/-- `RE_LOGCAT_LEVEL.match(line)`: returns the captured `(level, tag)` groups,
or `none` when the line does not match.  The pattern demands a non-empty
leading run of non-whitespace characters, one or more spaces, a severity
character from `[VDIWEF]`, a `/`, a non-empty tag run over `[^() ]`, optional
whitespace, and then a literal `(`. -/
def matchLogcatLevel (l : List Char) : Option (Char × List Char) :=
  let w := l.takeWhile (fun c => !isPySpace c)
  let r1 := l.dropWhile (fun c => !isPySpace c)
  if w.isEmpty then none else
  let sp := r1.takeWhile (fun c => c = ' ')
  let r2 := r1.dropWhile (fun c => c = ' ')
  if sp.isEmpty then none else
  match r2 with
  | c :: '/' :: r3 =>
    if c ∈ levelChars then
      let tag := r3.takeWhile isTagChar
      let r4 := r3.dropWhile isTagChar
      if tag.isEmpty then none else
      match r4.dropWhile isPySpace with
      | '(' :: _ => some (c, tag)
      | _ => none
    else none
  | _ => none

/-- Does `small` start `big`? (list prefix test, spelled out). -/
def startsList : List Char → List Char → Bool
  | [], _ => true
  | _ :: _, [] => false
  | a :: as, b :: bs => a = b && startsList as bs

/-- Substring search: does `needle` occur anywhere in `hay`? -/
def containsList (needle : List Char) : List Char → Bool
  | [] => needle.isEmpty
  | b :: bs => startsList needle (b :: bs) || containsList needle bs

/-- ASCII lowering, modelling `re.IGNORECASE` on the ASCII-only alternatives
of `RE_FATAL`. -/
def asciiLower (c : Char) : Char :=
  if 'A' ≤ c ∧ c ≤ 'Z' then Char.ofNat (c.toNat + 32) else c

/-- Case-insensitive substring search (`re.search` with `re.IGNORECASE`). -/
def searchCI (pat : String) (l : String) : Bool :=
  containsList (pat.data.map asciiLower) (l.data.map asciiLower)

/-- `RE_FATAL.search(line)`: one of the three fatal markers occurs. -/
def hasFatal (l : String) : Bool :=
  searchCI ("FATAL EXCEPTION") l || searchCI ("ANR in") l ||
  searchCI ("java.lang.") l

/-! ### The analysis loop of `cmd_analyze_logs` -/

/-- Mutable state of the `for line in f` loop of `cmd_analyze_logs`. -/
structure AnalyzeState where
  levels : List (Char × Nat)
  tags : List (String × Nat)
  fatals : Nat
  lines_total : Nat
deriving DecidableEq, Repr

/-- `levels = {"V": 0, "D": 0, "I": 0, "W": 0, "E": 0, "F": 0}`,
`tags = {}`, `fatals = 0`, `lines_total = 0`. -/
def initState : AnalyzeState :=
  { levels := [('V', 0), ('D', 0), ('I', 0), ('W', 0), ('E', 0), ('F', 0)],
    tags := [], fatals := 0, lines_total := 0 }

/-- One iteration of the loop body: count the line, update level/tag dicts on
a `RE_LOGCAT_LEVEL` match, and bump `fatals` on a `RE_FATAL` hit. -/
def analyzeStep (st : AnalyzeState) (line : String) : AnalyzeState :=
  let st1 : AnalyzeState := { st with lines_total := st.lines_total + 1 }
  let st2 : AnalyzeState :=
    match matchLogcatLevel line.data with
    | some (lvl, tag) =>
      { st1 with levels := dictIncr st1.levels lvl,
                 tags := dictIncr st1.tags (String.mk tag) }
    | none => st1
  if hasFatal line then { st2 with fatals := st2.fatals + 1 } else st2

/-! ### Ranking the tags

`top_tags = sorted(tags.items(), key=lambda kv: kv[1], reverse=True)[:10]`.
Python's `sorted` is stable, and `reverse=True` keeps stability: the result
is the unique permutation that is descending in the key and preserves the
original relative order of entries with equal keys.  Stable insertion into a
descending list computes exactly that permutation. -/

def insertDescTag (x : String × Nat) : List (String × Nat) → List (String × Nat)
  | [] => [x]
  | y :: ys => if y.2 ≤ x.2 then x :: y :: ys else y :: insertDescTag x ys

def pySortDesc (l : List (String × Nat)) : List (String × Nat) :=
  l.foldr insertDescTag []

/-- Fields of the report built by `cmd_analyze_logs` (the `file` path and the
wall-clock `analyzed_at` timestamp are environment data and are omitted). -/
structure Report where
  lines : Nat
  levels : List (Char × Nat)
  fatals_or_anrs : Nat
  top10_tags : List (String × Nat)
deriving DecidableEq, Repr

/-- The whole of `cmd_analyze_logs` on a successfully read file, as a function
of the list of its lines. -/
def analyze (lines : List String) : Report :=
  let st := lines.foldl analyzeStep initState
  { lines := st.lines_total,
    levels := st.levels,
    fatals_or_anrs := st.fatals,
    top10_tags := (pySortDesc st.tags).take 10 }

/-- The `tags` dict after the analysis loop. -/
def analyzeTags (lines : List String) : List (String × Nat) :=
  (lines.foldl analyzeStep initState).tags

/-- The level captured from a line, if the line matches `RE_LOGCAT_LEVEL`. -/
def levelOf (l : String) : Option Char := (matchLogcatLevel l.data).map Prod.fst

/-- Whether a line matches `RE_LOGCAT_LEVEL`. -/
def lineMatches (l : String) : Bool := (matchLogcatLevel l.data).isSome

/-- The tag captured from a line, if the line matches `RE_LOGCAT_LEVEL`. -/
def parsedTag (l : String) : Option String :=
  (matchLogcatLevel l.data).map (fun p => String.mk p.2)

/-- The sequence of tag occurrences parsed out of the input, in input order. -/
def parsedTags (lines : List String) : List String := lines.filterMap parsedTag

/-- The distinct values of a sequence, in order of first occurrence. -/
def firstOccurrences (occs : List String) : List String :=
  occs.foldl (fun acc t => if t ∈ acc then acc else acc ++ [t]) []

/-! ### `str.join` and command-line assembly -/

/-- `sep.join(parts)`. -/
def joinSep (sep : String) : List String → String
  | [] => ""
  | [x] => x
  | x :: y :: xs => x ++ sep ++ joinSep sep (y :: xs)

/-- `AdbRunner._build`: `[adb_path] (+ ["-s", serial]) + args`. -/
def buildCmd (adbPath : String) (serial : Option String) (args : List String) :
    List String :=
  [adbPath] ++ (match serial with | some s => ["-s", s] | none => []) ++ args

/-! ### `DeviceSelector` -/

/-- The fields of the `DeviceInfo` dataclass. -/
structure DeviceInfo where
  serial : String
  state : String
  model : String
  transport : Option String
  android : Option String
  sdk : Option String
deriving DecidableEq, Repr

/-- The candidate line `- {d.serial} ({d.model or 'n/a'})` of the ambiguity
message of `DeviceSelector.pick`. -/
def fmtDev (d : DeviceInfo) : String :=
  "- " ++ d.serial ++ " (" ++ (if d.model == ("") then ("n/a") else d.model) ++ ")"

/-- The message of `die(3, ...)` when several devices are online. -/
def multiDeviceMsg (online : List DeviceInfo) : String :=
  "Несколько подключённых устройств. Укажите --serial. Список:\n" ++
    joinSep ("\n") (online.map fmtDev)

/-- `DeviceSelector.pick`: `die(code, msg)` is modelled as
`Except.error (code, msg)`, where `code` becomes the process exit code and
`msg` is the single message printed to stderr. -/
def pick (devs : List DeviceInfo) (preferred : Option String) :
    Except (Nat × String) String :=
  let online := devs.filter (fun d => d.state == ("device"))
  match preferred with
  | some s =>
    match online.find? (fun d => d.serial == s) with
    | some d => Except.ok d.serial
    | none =>
      Except.error (3, "Устройство с serial " ++ s ++
        " не найдено или не в состоянии 'device'.")
  | none =>
    match online with
    | [] => Except.error (3, "Нет подключённых устройств (state 'device').")
    | [d] => Except.ok d.serial
    | online₂ => Except.error (3, multiDeviceMsg online₂)

/-! ### `AdbRunner.run`

The effect of `subprocess.run` is passed in as a `SubprocOutcome`; the
function is a pure transformer of that outcome.  `die(code, msg)` again
becomes `Except.error (code, msg)` plus the single stderr line
`"Ошибка: " ++ msg`. -/

inductive SubprocOutcome where
  | completed (rc : Int) (out err : String)
  | timedOut
  | fileNotFound
  | failed (msg : String)
deriving DecidableEq, Repr

structure RunResult where
  printed : List String
  spawned : Bool
  result : Except (Nat × String) (Int × String × String)
deriving Repr

/-- `timeout or self.timeout` (Python treats both `None` and `0` as falsy). -/
def effectiveTimeout (timeoutArg : Option Nat) (selfTimeout : Nat) : Nat :=
  match timeoutArg with
  | none => selfTimeout
  | some t => if t = 0 then selfTimeout else t

/-- Rendering of `str(subprocess.CalledProcessError(...))`; library behaviour,
not load-bearing for any claim. -/
def calledProcErrStr (rc : Int) : String :=
  "Command returned non-zero exit status " ++ toString rc ++ "."

/-- `AdbRunner.run`. -/
def run_model (adbPath : String) (dryRun : Bool) (selfTimeout : Nat)
    (args : List String) (serial : Option String) (timeoutArg : Option Nat)
    (check : Bool) (outcome : SubprocOutcome) : RunResult :=
  let cmd := buildCmd adbPath serial args
  if dryRun then
    { printed := ["[DRY-RUN] " ++ joinSep (" ") cmd], spawned := false,
      result := Except.ok (0, "", "") }
  else
    match outcome with
    | SubprocOutcome.completed rc out err =>
      if check ∧ rc ≠ 0 then
        -- `CalledProcessError` is caught by the final `except Exception`.
        let msg := "Не удалось выполнить команду: " ++ joinSep (" ") cmd ++
          "\n" ++ calledProcErrStr rc
        { printed := ["Ошибка: " ++ msg], spawned := true,
          result := Except.error (1, msg) }
      else
        { printed := [], spawned := true, result := Except.ok (rc, out, err) }
    | SubprocOutcome.timedOut =>
      let msg := "Команда превысила таймаут " ++
        toString (effectiveTimeout timeoutArg selfTimeout) ++ " с: " ++
        joinSep (" ") cmd
      { printed := ["Ошибка: " ++ msg], spawned := true,
        result := Except.error (5, msg) }
    | SubprocOutcome.fileNotFound =>
      let msg := "adb не найден (FileNotFoundError). Проверьте установку и PATH."
      { printed := ["Ошибка: " ++ msg], spawned := true,
        result := Except.error (2, msg) }
    | SubprocOutcome.failed emsg =>
      let msg := "Не удалось выполнить команду: " ++ joinSep (" ") cmd ++
        "\n" ++ emsg
      { printed := ["Ошибка: " ++ msg], spawned := true,
        result := Except.error (1, msg) }

/-! ### `cmd_logcat` (streamed capture)

The spawned `logcat` child, the output file and the cancellation timer are
effects; what the control flow observes is whether the `try` block raised
(`openFails`) and the exit status `waitRc` returned by `proc.wait()`.  The
cancellation timer only influences `waitRc`.  There is no timeout on `wait`,
so this path can never reach `die(5, ...)`. -/

structure LogcatEnv where
  dryRun : Bool
  duration : Nat
  openFails : Option String
  waitRc : Int
deriving DecidableEq, Repr

structure LogcatOutcome where
  printed : List String
  warnedNonzero : Bool
  exitCode : Nat
deriving DecidableEq, Repr

/-- The tail of `cmd_logcat` after device pick and command assembly. -/
def cmd_logcat_model (cmdLine outPath : String) (env : LogcatEnv) :
    LogcatOutcome :=
  if env.dryRun then
    { printed := ["[DRY-RUN] " ++ cmdLine,
                  "[DRY-RUN] Логи писались бы в " ++ outPath],
      warnedNonzero := false, exitCode := 0 }
  else
    match env.openFails with
    | some e =>
      { printed := ["Ошибка: Ошибка logcat: " ++ e], warnedNonzero := false,
        exitCode := 1 }
    | none =>
      -- `rc = proc.wait()`; `if rc != 0 and rc is not None: logging.warning(...)`
      { printed := ["Логи сохранены: " ++ outPath],
        warnedNonzero := env.waitRc != 0, exitCode := 0 }

/-! ### `cmd_record` duration handling

`duration = min(max(args.duration or 30, 1), 180)` and the one-shot call
`adb.run([...], serial, timeout=duration + 5)`. -/

/-- `args.duration or 30`: Python `or` replaces both `None` and `0`. -/
def pyOrInt (v : Option Int) (dflt : Int) : Int :=
  match v with
  | none => dflt
  | some x => if x = 0 then dflt else x

/-- The `--time-limit` value passed to `screenrecord`. -/
def recordDuration (d : Option Int) : Int := min (max (pyOrInt d 30) 1) 180

/-- The `timeout=` argument of the one-shot `screenrecord` invocation. -/
def recordTimeout (d : Option Int) : Int := recordDuration d + 5

/-! ### Position-annotated copy of the stable sort

Used to prove stability of `pySortDesc`: annotate every entry of the `tags`
association list with its position, sort with the same comparisons, and read
the tie-breaking order off the annotations. -/

def withIdx {α : Type} : List α → Nat → List (Nat × α)
  | [], _ => []
  | x :: xs, i => (i, x) :: withIdx xs (i + 1)

def insertDescIdx (x : Nat × (String × Nat)) :
    List (Nat × (String × Nat)) → List (Nat × (String × Nat))
  | [] => [x]
  | y :: ys => if y.2.2 ≤ x.2.2 then x :: y :: ys else y :: insertDescIdx x ys

def pySortDescIdx (l : List (Nat × (String × Nat))) :
    List (Nat × (String × Nat)) :=
  l.foldr insertDescIdx []

/-- Sort order on annotated entries: strictly larger count first; on equal
counts, the entry with the smaller original position first. -/
def idxRel (a b : Nat × (String × Nat)) : Prop :=
  b.2.2 < a.2.2 ∨ (a.2.2 = b.2.2 ∧ a.1 < b.1)

end AdbHelper



namespace AdbHelper

/-! ## Helper lemmas: the dict model -/

theorem dictGet_dictIncr {κ : Type} [DecidableEq κ] (d : List (κ × Nat))
    (k c : κ) :
    dictGet (dictIncr d k) c = dictGet d c + if c = k then 1 else 0 := by
  induction d with
  | nil =>
    by_cases h : c = k
    · subst h; simp [dictIncr, dictGet]
    · have hk : ¬k = c := fun hh => h hh.symm
      simp [dictIncr, dictGet, h, hk]
  | cons q rest ih =>
    obtain ⟨a, n⟩ := q
    by_cases hak : a = k
    · subst hak
      by_cases hc : c = a
      · subst hc; simp [dictIncr, dictGet]
      · have hac : ¬a = c := fun hh => hc hh.symm
        simp [dictIncr, dictGet, hc, hac]
    · by_cases hc : a = c
      · subst hc
        have hck : ¬a = k := hak
        simp [dictIncr, dictGet, hak, hck]
      · simp [dictIncr, dictGet, hak, hc, ih]

theorem keys_dictIncr {κ : Type} [DecidableEq κ] (d : List (κ × Nat)) (k : κ) :
    (dictIncr d k).map Prod.fst =
      if k ∈ d.map Prod.fst then d.map Prod.fst else d.map Prod.fst ++ [k] := by
  induction d with
  | nil => simp [dictIncr]
  | cons q rest ih =>
    obtain ⟨a, n⟩ := q
    by_cases hak : a = k
    · subst hak; simp [dictIncr]
    · have hka : ¬k = a := fun hh => hak hh.symm
      by_cases hm : k ∈ rest.map Prod.fst <;>
        simp [dictIncr, hak, hka, hm, ih]

theorem sumVals_dictIncr {κ : Type} [DecidableEq κ] (d : List (κ × Nat))
    (k : κ) : sumVals (dictIncr d k) = sumVals d + 1 := by
  induction d with
  | nil => simp [dictIncr, sumVals]
  | cons q rest ih =>
    obtain ⟨a, n⟩ := q
    by_cases hak : a = k
    · have hstep : dictIncr ((a, n) :: rest) k = (a, n + 1) :: rest := by
        simp [dictIncr, hak]
      rw [hstep]
      simp only [sumVals, List.map_cons, List.sum_cons]
      omega
    · simp only [dictIncr, if_neg hak, sumVals, List.map_cons, List.sum_cons]
      have h2 := ih
      simp only [sumVals] at h2
      omega

/-! ## Helper lemmas: the line matcher -/

theorem level_mem_of_match {l : List Char} {p : Char × List Char}
    (h : matchLogcatLevel l = some p) : p.1 ∈ levelChars := by
  simp only [matchLogcatLevel] at h
  repeat' split at h
  all_goals try exact Option.noConfusion h
  have hp := Option.some.inj h
  subst hp
  exact ‹_ ∈ levelChars›

/-! ## Helper lemmas: one step of the analysis loop -/

theorem analyzeStep_lines_total (st : AnalyzeState) (line : String) :
    (analyzeStep st line).lines_total = st.lines_total + 1 := by
  simp only [analyzeStep]
  repeat' split
  all_goals rfl

theorem analyzeStep_fatals (st : AnalyzeState) (line : String) :
    (analyzeStep st line).fatals =
      st.fatals + if hasFatal line then 1 else 0 := by
  simp only [analyzeStep]
  repeat' split
  all_goals rfl

theorem analyzeStep_levels (st : AnalyzeState) (line : String) :
    (analyzeStep st line).levels =
      match matchLogcatLevel line.data with
      | some p => dictIncr st.levels p.1
      | none => st.levels := by
  simp only [analyzeStep]
  cases h : matchLogcatLevel line.data with
  | none => split <;> rfl
  | some p =>
    obtain ⟨lvl, tag⟩ := p
    split <;> rfl

theorem analyzeStep_tags (st : AnalyzeState) (line : String) :
    (analyzeStep st line).tags =
      match matchLogcatLevel line.data with
      | some p => dictIncr st.tags (String.mk p.2)
      | none => st.tags := by
  simp only [analyzeStep]
  cases h : matchLogcatLevel line.data with
  | none => split <;> rfl
  | some p =>
    obtain ⟨lvl, tag⟩ := p
    split <;> rfl

end AdbHelper

namespace AdbHelper

/-! ## Helper lemmas: the whole analysis loop -/

theorem foldl_lines_total (ls : List String) (st : AnalyzeState) :
    (List.foldl analyzeStep st ls).lines_total = st.lines_total + ls.length := by
  induction ls generalizing st with
  | nil => simp
  | cons l ls ih =>
    rw [List.foldl_cons, ih, analyzeStep_lines_total]
    simp
    omega

theorem foldl_fatals (ls : List String) (st : AnalyzeState) :
    (List.foldl analyzeStep st ls).fatals = st.fatals + ls.countP hasFatal := by
  induction ls generalizing st with
  | nil => simp
  | cons l ls ih =>
    rw [List.foldl_cons, ih, analyzeStep_fatals, List.countP_cons]
    by_cases h : hasFatal l
    · simp [h]
      omega
    · simp [h]

theorem foldl_levels_get (ls : List String) (st : AnalyzeState) (c : Char) :
    dictGet (List.foldl analyzeStep st ls).levels c =
      dictGet st.levels c +
        ls.countP (fun l => decide (levelOf l = some c)) := by
  induction ls generalizing st with
  | nil => simp
  | cons l ls ih =>
    rw [List.foldl_cons, ih, List.countP_cons, analyzeStep_levels]
    cases h : matchLogcatLevel l.data with
    | none => simp [levelOf, h]
    | some p =>
      rw [dictGet_dictIncr]
      by_cases hc : c = p.1
      · simp [levelOf, h, hc]
        omega
      · have hpc : ¬p.1 = c := fun hh => hc hh.symm
        simp [levelOf, h, hc, hpc]

theorem foldl_levels_keys (ls : List String) (st : AnalyzeState)
    (hk : st.levels.map Prod.fst = levelChars) :
    (List.foldl analyzeStep st ls).levels.map Prod.fst = levelChars := by
  induction ls generalizing st with
  | nil => exact hk
  | cons l ls ih =>
    rw [List.foldl_cons]
    apply ih
    rw [analyzeStep_levels]
    cases h : matchLogcatLevel l.data with
    | none => exact hk
    | some p =>
      rw [keys_dictIncr, hk, if_pos (level_mem_of_match h)]

theorem foldl_levels_sum (ls : List String) (st : AnalyzeState) :
    sumVals (List.foldl analyzeStep st ls).levels =
      sumVals st.levels + ls.countP lineMatches := by
  induction ls generalizing st with
  | nil => simp
  | cons l ls ih =>
    rw [List.foldl_cons, ih, List.countP_cons, analyzeStep_levels]
    cases h : matchLogcatLevel l.data with
    | none => simp [lineMatches, h]
    | some p =>
      rw [sumVals_dictIncr]
      simp [lineMatches, h]
      omega

theorem foldl_tags_sum (ls : List String) (st : AnalyzeState) :
    sumVals (List.foldl analyzeStep st ls).tags =
      sumVals st.tags + ls.countP lineMatches := by
  induction ls generalizing st with
  | nil => simp
  | cons l ls ih =>
    rw [List.foldl_cons, ih, List.countP_cons, analyzeStep_tags]
    cases h : matchLogcatLevel l.data with
    | none => simp [lineMatches, h]
    | some p =>
      rw [sumVals_dictIncr]
      simp [lineMatches, h]
      omega

theorem foldl_tags_eq (ls : List String) (st : AnalyzeState) :
    (List.foldl analyzeStep st ls).tags =
      List.foldl dictIncr st.tags (parsedTags ls) := by
  induction ls generalizing st with
  | nil => rfl
  | cons l ls ih =>
    rw [List.foldl_cons, ih, analyzeStep_tags]
    cases h : matchLogcatLevel l.data with
    | none =>
      have hp : parsedTags (l :: ls) = parsedTags ls := by
        simp [parsedTags, List.filterMap_cons, parsedTag, h]
      rw [hp]
    | some p =>
      have hp : parsedTags (l :: ls) = String.mk p.2 :: parsedTags ls := by
        simp [parsedTags, List.filterMap_cons, parsedTag, h]
      rw [hp, List.foldl_cons]

theorem keys_foldl_dictIncr (occs : List String) (acc : List (String × Nat)) :
    (List.foldl dictIncr acc occs).map Prod.fst =
      List.foldl (fun ks t => if t ∈ ks then ks else ks ++ [t])
        (acc.map Prod.fst) occs := by
  induction occs generalizing acc with
  | nil => rfl
  | cons t ts ih =>
    rw [List.foldl_cons, List.foldl_cons, ih, keys_dictIncr]

theorem analyzeTags_keys (lines : List String) :
    (analyzeTags lines).map Prod.fst = firstOccurrences (parsedTags lines) := by
  unfold analyzeTags
  rw [foldl_tags_eq]
  have h2 := keys_foldl_dictIncr (parsedTags lines) initState.tags
  rw [h2]
  rfl

end AdbHelper

namespace AdbHelper

/-! ## Helper lemmas: the stable descending sort -/

theorem insertDescTag_perm (x : String × Nat) (l : List (String × Nat)) :
    (insertDescTag x l).Perm (x :: l) := by
  induction l with
  | nil => simp [insertDescTag]
  | cons y ys ih =>
    by_cases h : y.2 ≤ x.2
    · simp [insertDescTag, h]
    · simp only [insertDescTag, if_neg h]
      exact (ih.cons y).trans (List.Perm.swap x y ys)

theorem pySortDesc_perm (l : List (String × Nat)) : (pySortDesc l).Perm l := by
  induction l with
  | nil => simp [pySortDesc]
  | cons x l ih =>
    have hstep : pySortDesc (x :: l) = insertDescTag x (pySortDesc l) := rfl
    rw [hstep]
    exact (insertDescTag_perm x (pySortDesc l)).trans (ih.cons x)

theorem insertDescIdx_perm (x : Nat × (String × Nat))
    (l : List (Nat × (String × Nat))) : (insertDescIdx x l).Perm (x :: l) := by
  induction l with
  | nil => simp [insertDescIdx]
  | cons y ys ih =>
    by_cases h : y.2.2 ≤ x.2.2
    · simp [insertDescIdx, h]
    · simp only [insertDescIdx, if_neg h]
      exact (ih.cons y).trans (List.Perm.swap x y ys)

theorem pySortDescIdx_perm (l : List (Nat × (String × Nat))) :
    (pySortDescIdx l).Perm l := by
  induction l with
  | nil => simp [pySortDescIdx]
  | cons x l ih =>
    have hstep : pySortDescIdx (x :: l) = insertDescIdx x (pySortDescIdx l) := rfl
    rw [hstep]
    exact (insertDescIdx_perm x (pySortDescIdx l)).trans (ih.cons x)

theorem insertDescIdx_map_snd (x : Nat × (String × Nat))
    (ys : List (Nat × (String × Nat))) :
    (insertDescIdx x ys).map Prod.snd = insertDescTag x.2 (ys.map Prod.snd) := by
  induction ys with
  | nil => rfl
  | cons y ys ih =>
    by_cases h : y.2.2 ≤ x.2.2
    · simp [insertDescIdx, insertDescTag, h]
    · simp [insertDescIdx, insertDescTag, h, ih]

theorem pySortDescIdx_map_snd (l : List (Nat × (String × Nat))) :
    (pySortDescIdx l).map Prod.snd = pySortDesc (l.map Prod.snd) := by
  induction l with
  | nil => rfl
  | cons x l ih =>
    have hstep : pySortDescIdx (x :: l) = insertDescIdx x (pySortDescIdx l) := rfl
    have hstep₂ : pySortDesc (x.2 :: l.map Prod.snd) =
        insertDescTag x.2 (pySortDesc (l.map Prod.snd)) := rfl
    rw [hstep, List.map_cons, hstep₂, insertDescIdx_map_snd, ih]

theorem withIdx_map_snd {α : Type} (l : List α) (i : Nat) :
    (withIdx l i).map Prod.snd = l := by
  induction l generalizing i with
  | nil => rfl
  | cons x xs ih => simp [withIdx, ih]

theorem withIdx_fst_ge {α : Type} (l : List α) (i : Nat) :
    ∀ p ∈ withIdx l i, i ≤ p.1 := by
  induction l generalizing i with
  | nil => intro p hp; simp [withIdx] at hp
  | cons x xs ih =>
    intro p hp
    rcases List.mem_cons.mp hp with rfl | hp'
    · exact Nat.le_refl i
    · exact Nat.le_of_succ_le (ih (i + 1) p hp')

theorem withIdx_pairwise {α : Type} (l : List α) (i : Nat) :
    (withIdx l i).Pairwise (fun a b => a.1 < b.1) := by
  induction l generalizing i with
  | nil => simp [withIdx]
  | cons x xs ih =>
    refine List.Pairwise.cons ?_ (ih (i + 1))
    intro b hb
    exact Nat.lt_of_succ_le (withIdx_fst_ge xs (i + 1) b hb)

theorem mem_withIdx {α : Type} (l : List α) (i : Nat)
    (p : Nat × α) (h : p ∈ withIdx l i) :
    ∃ k, ∃ hk : k < l.length, p.1 = i + k ∧ p.2 = l.get ⟨k, hk⟩ := by
  induction l generalizing i with
  | nil => simp [withIdx] at h
  | cons x xs ih =>
    rcases List.mem_cons.mp h with rfl | h'
    · exact ⟨0, by simp, by simp, by simp [List.get]⟩
    · obtain ⟨k, hk, h1, h2⟩ := ih (i + 1) h'
      exact ⟨k + 1, by simpa using hk, by omega, by simpa [List.get] using h2⟩

theorem pair_sublist {α : Type} (l : List α) :
    ∀ i j (hi : i < l.length) (hj : j < l.length), i < j →
      List.Sublist [l.get ⟨i, hi⟩, l.get ⟨j, hj⟩] l := by
  induction l with
  | nil => intro i j hi; simp at hi
  | cons a l ih =>
    intro i j hi hj hij
    cases i with
    | zero =>
      cases j with
      | zero => omega
      | succ j' =>
        simp only [List.get]
        exact List.Sublist.cons₂ a
          (List.singleton_sublist.mpr (l.get_mem _ _))
    | succ i' =>
      cases j with
      | zero => omega
      | succ j' =>
        simp only [List.get]
        exact List.Sublist.cons a (ih i' j' _ _ (by omega))

theorem idxRel_count_le {a b : Nat × (String × Nat)} (h : idxRel a b) :
    b.2.2 ≤ a.2.2 := by
  rcases h with h | ⟨h, _⟩ <;> omega

theorem pairwise_insertDescIdx {x : Nat × (String × Nat)}
    {ys : List (Nat × (String × Nat))} (hys : ys.Pairwise idxRel)
    (hx : ∀ y ∈ ys, x.1 < y.1) : (insertDescIdx x ys).Pairwise idxRel := by
  induction ys with
  | nil => simp [insertDescIdx, idxRel]
  | cons y ys ih =>
    rcases List.pairwise_cons.mp hys with ⟨hy, hys2⟩
    by_cases h : y.2.2 ≤ x.2.2
    · simp only [insertDescIdx, if_pos h]
      refine List.Pairwise.cons ?_ hys
      intro z hz
      have hz2 : z.2.2 ≤ x.2.2 := by
        rcases List.mem_cons.mp hz with rfl | hz'
        · exact h
        · exact Nat.le_trans (idxRel_count_le (hy z hz')) h
      rcases Nat.lt_or_eq_of_le hz2 with hlt | heq
      · exact Or.inl hlt
      · exact Or.inr ⟨heq.symm, hx z hz⟩
    · simp only [insertDescIdx, if_neg h]
      refine List.Pairwise.cons ?_
        (ih hys2 (fun z hz => hx z (List.mem_cons_of_mem y hz)))
      intro z hz
      have hz' : z ∈ x :: ys := (insertDescIdx_perm x ys).mem_iff.mp hz
      rcases List.mem_cons.mp hz' with rfl | hz2
      · exact Or.inl (Nat.not_le.mp h)
      · exact hy z hz2

theorem pairwise_pySortDescIdx (l : List (Nat × (String × Nat)))
    (hl : l.Pairwise (fun a b => a.1 < b.1)) :
    (pySortDescIdx l).Pairwise idxRel := by
  induction l with
  | nil => simp [pySortDescIdx]
  | cons x l ih =>
    rcases List.pairwise_cons.mp hl with ⟨hx, hl2⟩
    have hstep : pySortDescIdx (x :: l) = insertDescIdx x (pySortDescIdx l) := rfl
    rw [hstep]
    refine pairwise_insertDescIdx (ih hl2) ?_
    intro y hy
    exact hx y ((pySortDescIdx_perm l).mem_iff.mp hy)

/-- Stability of the Python sort: in `pySortDesc t`, any earlier entry has a
strictly larger count, or an equal count and an earlier position in `t`
(expressed as a two-element sublist of the key list of `t`). -/
theorem pairwise_pySortDesc_stable (t : List (String × Nat)) :
    (pySortDesc t).Pairwise
      (fun a b => b.2 < a.2 ∨ (a.2 = b.2 ∧ List.Sublist [a.1, b.1] (t.map Prod.fst))) := by
  have hidx := pairwise_pySortDescIdx (withIdx t 0) (withIdx_pairwise t 0)
  have hS : (pySortDescIdx (withIdx t 0)).Pairwise
      (fun p q => q.2.2 < p.2.2 ∨
        (p.2.2 = q.2.2 ∧ List.Sublist [p.2.1, q.2.1] (t.map Prod.fst))) := by
    refine List.Pairwise.imp_of_mem ?_ hidx
    intro p q hp hq hr
    have hp' : p ∈ withIdx t 0 := (pySortDescIdx_perm _).mem_iff.mp hp
    have hq' : q ∈ withIdx t 0 := (pySortDescIdx_perm _).mem_iff.mp hq
    rcases hr with hlt | ⟨heq, hij⟩
    · exact Or.inl hlt
    · refine Or.inr ⟨heq, ?_⟩
      obtain ⟨ki, hki, hpi, hpv⟩ := mem_withIdx t 0 p hp'
      obtain ⟨kj, hkj, hqi, hqv⟩ := mem_withIdx t 0 q hq'
      have hkk : ki < kj := by omega
      have hsub := (pair_sublist t ki kj hki hkj hkk).map Prod.fst
      rw [List.map_cons, List.map_cons, List.map_nil, ← hpv, ← hqv] at hsub
      exact hsub
  have hmap : ((pySortDescIdx (withIdx t 0)).map Prod.snd).Pairwise
      (fun a b => b.2 < a.2 ∨ (a.2 = b.2 ∧ List.Sublist [a.1, b.1] (t.map Prod.fst))) :=
    List.pairwise_map.mpr hS
  rw [pySortDescIdx_map_snd, withIdx_map_snd] at hmap
  exact hmap

end AdbHelper

namespace AdbHelper

/-! ## Helper lemmas: report projections and counting glue -/

theorem analyze_lines_def (lines : List String) :
    (analyze lines).lines = (List.foldl analyzeStep initState lines).lines_total :=
  rfl

theorem analyze_levels_def (lines : List String) :
    (analyze lines).levels = (List.foldl analyzeStep initState lines).levels :=
  rfl

theorem analyze_fatals_def (lines : List String) :
    (analyze lines).fatals_or_anrs =
      (List.foldl analyzeStep initState lines).fatals :=
  rfl

theorem analyze_top10_def (lines : List String) :
    (analyze lines).top10_tags = (pySortDesc (analyzeTags lines)).take 10 :=
  rfl

theorem countP_not_add {α : Type} (p : α → Bool) (l : List α) :
    l.countP p + l.countP (fun a => !(p a)) = l.length := by
  induction l with
  | nil => rfl
  | cons x xs ih =>
    rw [List.countP_cons, List.countP_cons, List.length_cons]
    by_cases h : p x
    all_goals simp [h]
    all_goals omega

theorem dictGet_initState_levels (c : Char) : dictGet initState.levels c = 0 := by
  show dictGet
    [('V', 0), ('D', 0), ('I', 0), ('W', 0), ('E', 0), ('F', 0)] c = 0
  simp [dictGet]

/-! ## Helper lemmas: substring containment in assembled messages -/

theorem isInfix_data_append {s t : String} {d : List Char}
    (h : List.IsInfix d t.data) : List.IsInfix d (s ++ t).data := by
  obtain ⟨u, v, huv⟩ := h
  exact ⟨s.data ++ u, v, by rw [String.data_append, ← huv]; simp⟩

theorem infix_joinSep_of_mem (sep : String) (l : List String) (s : String)
    (h : s ∈ l) : List.IsInfix s.data (joinSep sep l).data := by
  induction l with
  | nil => simp at h
  | cons x xs ih =>
    rcases List.mem_cons.mp h with rfl | h2
    · cases xs with
      | nil => exact ⟨[], [], by simp [joinSep]⟩
      | cons y ys =>
        refine ⟨[], (sep ++ joinSep sep (y :: ys)).data, ?_⟩
        simp [joinSep, String.data_append]
    · cases xs with
      | nil => simp at h2
      | cons y ys =>
        obtain ⟨u, v, huv⟩ := ih h2
        refine ⟨(x ++ sep).data ++ u, v, ?_⟩
        have hj : joinSep sep (x :: y :: ys) =
            x ++ sep ++ joinSep sep (y :: ys) := rfl
        have hd : (x ++ sep ++ joinSep sep (y :: ys)).data =
            (x ++ sep).data ++ (u ++ s.data ++ v) := by
          rw [String.data_append, ← huv]
        rw [hj, hd]
        simp [List.append_assoc]

theorem serial_infix_fmtDev (d : DeviceInfo) :
    List.IsInfix d.serial.data (fmtDev d).data := by
  refine ⟨("- ").data,
    (" (" ++ (if d.model == ("") then ("n/a") else d.model) ++ (")")).data, ?_⟩
  simp [fmtDev, String.data_append]

theorem serial_infix_multiMsg (online : List DeviceInfo) (d : DeviceInfo)
    (h : d ∈ online) :
    List.IsInfix d.serial.data (multiDeviceMsg online).data := by
  have h1 := serial_infix_fmtDev d
  have h2 := infix_joinSep_of_mem ("\n") (online.map fmtDev) (fmtDev d)
    (List.mem_map_of_mem fmtDev h)
  show List.IsInfix d.serial.data
    (("Несколько подключённых устройств. Укажите --serial. Список:\n" ++
      joinSep ("\n") (online.map fmtDev)).data)
  exact isInfix_data_append (h1.trans h2)

end AdbHelper

namespace AdbHelper

/-- C1: every input line increments the total line counter exactly once, and
the per-level counters (and exactly one tag counter) are incremented exactly
once if and only if the line matches `RE_LOGCAT_LEVEL`, independently of
fatal-marker detection: the total line count equals the count of matching
lines plus the count of non-matching lines. -/
theorem c1_total_split (lines : List String) :
    (analyze lines).lines = lines.length ∧
    lines.length = lines.countP lineMatches +
      lines.countP (fun l => !(lineMatches l)) ∧
    sumVals (analyze lines).levels = lines.countP lineMatches ∧
    sumVals (analyzeTags lines) = lines.countP lineMatches := by
  refine ⟨?_, (countP_not_add lineMatches lines).symm, ?_, ?_⟩
  · rw [analyze_lines_def, foldl_lines_total]
    simp [initState]
  · rw [analyze_levels_def, foldl_levels_sum]
    simp [initState, sumVals]
  · show sumVals (analyzeTags lines) = _
    unfold analyzeTags
    rw [foldl_tags_sum]
    simp [initState, sumVals]

/-- C2 counterexample: analysing the single line `I/Tag1: msg` yields an
all-zero level mapping — in particular `I` maps to `0`, not to `1` as the
claim states. -/
theorem c2_counterexample :
    (analyze [("I/Tag1: msg")]).levels =
      [('V', 0), ('D', 0), ('I', 0), ('W', 0), ('E', 0), ('F', 0)] ∧
    (((analyze [("I/Tag1: msg")]).levels ==
      [('V', 0), ('D', 0), ('I', 1), ('W', 0), ('E', 0), ('F', 0)]) = false) := by
  decide

/-- C2 (amended): analysing the single line `I/Tag1: msg` produces the
level-count mapping {V:0, D:0, I:0, W:0, E:0, F:0} and a total of 1: the
line-record pattern `RE_LOGCAT_LEVEL` requires a non-empty leading
non-whitespace field followed by spaces before the severity code (the
leading field is mandatory, not optional), and requires the tag to be
followed, after optional whitespace, by an opening parenthesis; `I/Tag1: msg`
satisfies neither requirement and counts only toward the total, while
`p I/Tag1(123): msg` matches with level `I` and tag `Tag1`. -/
theorem c2_amended :
    (analyze [("I/Tag1: msg")]).levels =
      [('V', 0), ('D', 0), ('I', 0), ('W', 0), ('E', 0), ('F', 0)] ∧
    (analyze [("I/Tag1: msg")]).lines = 1 ∧
    matchLogcatLevel ("I/Tag1: msg").data = none ∧
    matchLogcatLevel ("p I/Tag1: msg").data = none ∧
    matchLogcatLevel ("p I/Tag1(123): msg").data = some ('I', ("Tag1").data) ∧
    dictGet (analyze [("p I/Tag1(123): msg")]).levels 'I' = 1 := by
  decide

/-- C3: the report's top-tags list has at most 10 entries; it is ordered by
descending count, and between entries of equal count the one whose tag
occurs earlier in the tag dict (that is, was first encountered earlier —
the dict's key list equals `firstOccurrences` of the parsed tag sequence)
comes first; in particular, for tags with counts A=3, B=3, C=5 first
encountered in the order A, C, B, the output is C(5), A(3), B(3). -/
theorem c3_top_tags_ranking (lines : List String) :
    (analyze lines).top10_tags.length ≤ 10 ∧
    (analyze lines).top10_tags.Pairwise
      (fun a b => b.2 < a.2 ∨
        (a.2 = b.2 ∧
          List.Sublist [a.1, b.1] ((analyzeTags lines).map Prod.fst))) ∧
    (analyzeTags lines).map Prod.fst = firstOccurrences (parsedTags lines) ∧
    (analyze [("x I/A(1): m"), ("x I/C(1): m"), ("x I/B(1): m"),
              ("x I/A(1): m"), ("x I/C(1): m"), ("x I/C(1): m"),
              ("x I/B(1): m"), ("x I/A(1): m"), ("x I/C(1): m"),
              ("x I/C(1): m"), ("x I/B(1): m")]).top10_tags =
      [(("C"), 5), (("A"), 3), (("B"), 3)] := by
  refine ⟨?_, ?_, analyzeTags_keys lines, by decide⟩
  · rw [analyze_top10_def]
    simp [List.length_take]
  · rw [analyze_top10_def]
    exact List.Pairwise.sublist (List.take_sublist 10 _)
      (pairwise_pySortDesc_stable (analyzeTags lines))

/-- C4: every line is scanned for the three fatal markers ("FATAL EXCEPTION",
"ANR in", "java.lang.") case-insensitively and independently of the
level/tag match; a line with at least one marker adds exactly one to the
fatal counter even when several markers occur, and a line with none leaves
it unchanged: the counter equals the number of lines containing a marker. -/
theorem c4_fatal_per_line :
    (∀ lines : List String,
      (analyze lines).fatals_or_anrs = lines.countP hasFatal) ∧
    (∀ (st : AnalyzeState) (l : String),
      (analyzeStep st l).fatals = st.fatals + if hasFatal l then 1 else 0) ∧
    hasFatal ("x FATAL EXCEPTION y ANR in z") = true ∧
    (analyze [("x FATAL EXCEPTION y ANR in z")]).fatals_or_anrs = 1 ∧
    hasFatal ("a Fatal exception b") = true ∧
    hasFatal ("I/Tag(1): all good") = false := by
  refine ⟨?_, analyzeStep_fatals, by decide, by decide, by decide, by decide⟩
  intro lines
  rw [analyze_fatals_def, foldl_fatals]
  simp [initState]

/-- C5: the report's level mapping holds exactly the six keys V, D, I, W, E,
F — never fewer, never more — and the value at any character equals the
number of lines matched at that level (so levels with no line report 0). -/
theorem c5_levels_exact_keys (lines : List String) :
    ((analyze lines).levels).map Prod.fst = levelChars ∧
    ∀ c : Char, dictGet (analyze lines).levels c =
      lines.countP (fun l => decide (levelOf l = some c)) := by
  constructor
  · rw [analyze_levels_def]
    exact foldl_levels_keys lines initState rfl
  · intro c
    rw [analyze_levels_def, foldl_levels_get, dictGet_initState_levels]
    simp

/-- C6: when the streamed logcat child exits non-zero (e.g. after the
duration timer's interrupt), `cmd_logcat` logs a warning, still prints the
"saved" message, and returns exit status 0; the expiry never produces error
output or the timeout exit code 5. -/
theorem c6_logcat_soft_failure (cmdLine outPath : String) (env : LogcatEnv)
    (hdry : env.dryRun = false) (hopen : env.openFails = none)
    (hrc : env.waitRc ≠ 0) :
    (cmd_logcat_model cmdLine outPath env).exitCode = 0 ∧
    (cmd_logcat_model cmdLine outPath env).warnedNonzero = true ∧
    (cmd_logcat_model cmdLine outPath env).printed =
      ["Логи сохранены: " ++ outPath] ∧
    (((cmd_logcat_model cmdLine outPath env).exitCode == 5) = false) := by
  obtain ⟨d, dur, op, rc⟩ := env
  simp only at hdry hopen hrc
  subst hdry
  subst hopen
  simp [cmd_logcat_model, hrc]

/-- Witness for C6 at a concrete environment: the child was interrupted and
returned -2. -/
theorem c6_logcat_soft_failure_witness :
    (cmd_logcat_model ("adb -s emu logcat") ("logs/o.log")
        ⟨false, 60, none, -2⟩).exitCode = 0 ∧
    (cmd_logcat_model ("adb -s emu logcat") ("logs/o.log")
        ⟨false, 60, none, -2⟩).warnedNonzero = true ∧
    (cmd_logcat_model ("adb -s emu logcat") ("logs/o.log")
        ⟨false, 60, none, -2⟩).printed = ["Логи сохранены: " ++ ("logs/o.log")] ∧
    (((cmd_logcat_model ("adb -s emu logcat") ("logs/o.log")
        ⟨false, 60, none, -2⟩).exitCode == 5) = false) :=
  c6_logcat_soft_failure ("adb -s emu logcat") ("logs/o.log")
    ⟨false, 60, none, -2⟩ rfl rfl (by decide)

end AdbHelper

namespace AdbHelper

/-- C7: with no explicit serial, selection over the online devices (state
"device") fails via `die(3, ...)` when none is online, returns the unique
online device's serial when exactly one is, and with two or more fails via
`die(3, ...)` with a message that contains every online candidate's serial. -/
theorem c7_pick_selection (devs : List DeviceInfo) :
    (devs.filter (fun d => d.state == ("device")) = [] →
      pick devs none =
        Except.error (3, "Нет подключённых устройств (state 'device').")) ∧
    (∀ d : DeviceInfo, devs.filter (fun d => d.state == ("device")) = [d] →
      pick devs none = Except.ok d.serial) ∧
    (∀ d₁ d₂ rest,
      devs.filter (fun d => d.state == ("device")) = d₁ :: d₂ :: rest →
      pick devs none = Except.error (3, multiDeviceMsg (d₁ :: d₂ :: rest)) ∧
      ∀ d ∈ devs.filter (fun dd => dd.state == ("device")),
        List.IsInfix d.serial.data (multiDeviceMsg (d₁ :: d₂ :: rest)).data) := by
  refine ⟨?_, ?_, ?_⟩
  · intro h
    simp [pick, h]
  · intro d h
    simp [pick, h]
  · intro d₁ d₂ rest h
    refine ⟨by simp [pick, h], ?_⟩
    intro d hd
    rw [h] at hd
    exact serial_infix_multiMsg (d₁ :: d₂ :: rest) d hd

/-- Witness for C7: two online devices make selection fail with code 3 and a
message containing both serials. -/
theorem c7_pick_selection_witness :
    pick [⟨("emu-1"), ("device"), ("Pixel"), none, none, none⟩,
          ⟨("emu-2"), ("device"), (""), none, none, none⟩] none =
      Except.error (3, multiDeviceMsg
        [⟨("emu-1"), ("device"), ("Pixel"), none, none, none⟩,
         ⟨("emu-2"), ("device"), (""), none, none, none⟩]) ∧
    List.IsInfix ("emu-2").data
      (multiDeviceMsg
        [⟨("emu-1"), ("device"), ("Pixel"), none, none, none⟩,
         ⟨("emu-2"), ("device"), (""), none, none, none⟩]).data := by
  have h := (c7_pick_selection
    [⟨("emu-1"), ("device"), ("Pixel"), none, none, none⟩,
     ⟨("emu-2"), ("device"), (""), none, none, none⟩]).2.2
    ⟨("emu-1"), ("device"), ("Pixel"), none, none, none⟩
    ⟨("emu-2"), ("device"), (""), none, none, none⟩ [] (by decide)
  exact ⟨h.1, h.2 ⟨("emu-2"), ("device"), (""), none, none, none⟩ (by decide)⟩

/-- C8: a one-shot command whose subprocess run raises the timeout exception
is resolved by `die(5, ...)`: the runner produces the OperationTimeout error
with exit code 5 and exactly one error message, and no `(rc, out, err)`
result. -/
theorem c8_run_timeout (adbPath : String) (selfTimeout : Nat)
    (args : List String) (serial : Option String) (timeoutArg : Option Nat)
    (check : Bool) :
    (run_model adbPath false selfTimeout args serial timeoutArg check
        SubprocOutcome.timedOut).result =
      Except.error (5, "Команда превысила таймаут " ++
        toString (effectiveTimeout timeoutArg selfTimeout) ++ " с: " ++
        joinSep (" ") (buildCmd adbPath serial args)) ∧
    (run_model adbPath false selfTimeout args serial timeoutArg check
        SubprocOutcome.timedOut).printed =
      ["Ошибка: " ++ ("Команда превысила таймаут " ++
        toString (effectiveTimeout timeoutArg selfTimeout) ++ " с: " ++
        joinSep (" ") (buildCmd adbPath serial args))] ∧
    (run_model adbPath false selfTimeout args serial timeoutArg check
        SubprocOutcome.timedOut).printed.length = 1 := by
  refine ⟨rfl, rfl, rfl⟩

/-- C9: in dry-run mode the runner prints the would-be invocation, returns
`(0, "", "")`, and spawns no subprocess, whatever the external outcome would
have been. -/
theorem c9_dry_run (adbPath : String) (selfTimeout : Nat) (args : List String)
    (serial : Option String) (timeoutArg : Option Nat) (check : Bool)
    (outcome : SubprocOutcome) :
    run_model adbPath true selfTimeout args serial timeoutArg check outcome =
      { printed := ["[DRY-RUN] " ++ joinSep (" ") (buildCmd adbPath serial args)],
        spawned := false, result := Except.ok (0, "", "") } :=
  rfl

/-- C10 counterexample: for a requested duration of 0 seconds the recorder
is passed 30, not the clamp `min (max 0 1) 180 = 1` that the claim
prescribes (`args.duration or 30` treats 0 as absent). -/
theorem c10_counterexample :
    recordDuration (some 0) = 30 ∧
    min (max (0 : Int) 1) 180 = 1 ∧
    ((recordDuration (some 0) == min (max (0 : Int) 1) 180) = false) := by
  decide

/-- C10 (amended): the duration passed to the recorder is
`min (max d 1) 180` for any given non-zero duration `d`, while an absent or
zero requested duration is replaced by 30 before clamping; in all cases the
passed duration lies in [1, 180] and the one-shot timeout is the passed
duration plus 5 seconds. -/
theorem c10_record_clamp (d : Option Int) :
    1 ≤ recordDuration d ∧ recordDuration d ≤ 180 ∧
    recordTimeout d = recordDuration d + 5 ∧
    (∀ x : Int, d = some x → ¬x = 0 → recordDuration d = min (max x 1) 180) ∧
    (d = none → recordDuration d = 30) ∧
    (d = some 0 → recordDuration d = 30) := by
  refine ⟨?_, ?_, rfl, ?_, ?_, ?_⟩
  · cases d with
    | none => decide
    | some x =>
      by_cases h : x = 0
      · subst h; decide
      · simp [recordDuration, pyOrInt, h]
  · cases d with
    | none => decide
    | some x =>
      by_cases h : x = 0
      · subst h; decide
      · simp [recordDuration, pyOrInt, h]
  · intro x hx hx0
    subst hx
    simp [recordDuration, pyOrInt, hx0]
  · intro h
    subst h
    decide
  · intro h
    subst h
    decide

/-- Witness for C10: a requested duration of 200 is clamped to 180 with
timeout 185, and an absent duration becomes 30. -/
theorem c10_record_clamp_witness :
    recordDuration (some 200) = min (max (200 : Int) 1) 180 ∧
    recordTimeout (some 200) = recordDuration (some 200) + 5 ∧
    recordDuration none = 30 :=
  ⟨(c10_record_clamp (some 200)).2.2.2.1 200 rfl (by decide),
   (c10_record_clamp (some 200)).2.2.1,
   (c10_record_clamp none).2.2.2.2.1 rfl⟩

end AdbHelper
